import Mathlib

/-!
Shallow embedding of the QTM blockchain core (Python sources:
`core/transaction.py`, `core/block.py`, `core/blockchain.py`, `node.py`)
together with proofs settling the frozen claims about it.

Modelling conventions:
* Python floats (timestamps, amounts) are modelled as `ℚ`.
* SHA-256 (`hashlib.sha256(...).hexdigest()`) is an uninterpreted parameter
  `sha256hex : String → String`; the JSON serialization feeding it is built
  concretely, following `json.dumps(..., sort_keys=True)` with its default
  separators `", "` and `": "`.
* Python's `repr` of a float inside `json.dumps` is the parameter
  `reprNum : ℚ → String`.
* ECDSA verification (`ecdsa.VerifyingKey.verify`, with its surrounding
  `try/except` that maps every failure to `False`) is the boolean parameter
  `sigVerify : String → String → String → Bool` (pubkey, signature, message),
  and address derivation `Transaction.pubkey_to_address` (SHA-256 /
  RIPEMD-160 / Base58Check pipeline) is the parameter `addrOf`.
* Transaction inputs are modelled as records carrying a txid and a natural
  output index; `pubkey` and `signature` are optional, as in the source,
  where they are attached after construction and checked for `None` in
  `Transaction.verify`.
* Python dictionaries (the UTXO set, the `used` map of
  `find_spendable_outputs`) are insertion-ordered association lists;
  assigning to an existing key keeps its position, a new key is appended,
  matching `dict` semantics.
* Unbounded `while` loops (`Block.mine_block`, the Merkle fold) take an
  explicit fuel argument; `none` means the loop is still running.
-/

/-- An output of a transaction: `{'address': ..., 'amount': ...}`. -/
structure TxOutput where
  address : String
  amount : ℚ
deriving DecidableEq, Repr

/-- An input of a transaction: `{'txid': ..., 'vout': ..., 'pubkey': ..., 'signature': ...}`.
`pubkey` and `signature` are optional (absent before signing / for foreign data). -/
structure TxInput where
  txid : String
  vout : Nat
  pubkey : Option String := none
  signature : Option String := none
deriving DecidableEq, Repr

/-- `Transaction` dataclass of `core/transaction.py`: inputs, outputs,
timestamp and the (stored) txid. -/
structure Transaction where
  inputs : List TxInput
  outputs : List TxOutput
  timestamp : ℚ
  txid : String
deriving DecidableEq, Repr

/-- `Block` dataclass of `core/block.py`. -/
structure Block where
  index : Nat
  timestamp : ℚ
  transactions : List Transaction
  previous_hash : String
  nonce : Nat
  hash : String
  merkle_root : String
deriving DecidableEq, Repr

/-- JSON rendering of a string value (the hex / Base58 strings appearing in
this system need no escaping). -/
def jsonStr (s : String) : String := "\"" ++ s ++ "\""

/-- JSON rendering of a list from its already rendered elements
(`json.dumps` default separator `", "`). -/
def jsonList (elems : List String) : String :=
  "[" ++ String.intercalate ", " elems ++ "]"

/-- Serialization of one input as `json.dumps({...}, sort_keys=True)` renders
it **after the `'signature'` key has been removed** in
`Transaction.calculate_hash`; remaining keys in sorted order:
`pubkey` (when present), `txid`, `vout`. -/
def serializeInput (inp : TxInput) : String :=
  "\x7b" ++
    (match inp.pubkey with
      | some pk => "\"pubkey\": " ++ jsonStr pk ++ ", "
      | none => "") ++
    "\"txid\": " ++ jsonStr inp.txid ++ ", \"vout\": " ++ toString inp.vout ++
  "\x7d"

/-- Serialization of one output; sorted keys `address`, `amount`. -/
def serializeOutput (reprNum : ℚ → String) (o : TxOutput) : String :=
  "\x7b\"address\": " ++ jsonStr o.address ++ ", \"amount\": " ++ reprNum o.amount ++ "\x7d"

/-- The preimage string of `Transaction.calculate_hash`:
`json.dumps({'inputs': inputs_clean, 'outputs': ..., 'timestamp': ...}, sort_keys=True)`
with signatures stripped from the inputs. -/
def txPreimage (reprNum : ℚ → String) (tx : Transaction) : String :=
  "\x7b\"inputs\": " ++ jsonList (tx.inputs.map serializeInput) ++
  ", \"outputs\": " ++ jsonList (tx.outputs.map (serializeOutput reprNum)) ++
  ", \"timestamp\": " ++ reprNum tx.timestamp ++ "\x7d"

/-- `Transaction.calculate_hash`: SHA-256 hex digest of the canonical
serialization (signatures excluded). -/
def Transaction.calculate_hash (sha256hex : String → String) (reprNum : ℚ → String)
    (tx : Transaction) : String :=
  sha256hex (txPreimage reprNum tx)

/-- `Transaction.__post_init__` when `txid is None`: build the transaction
and fill in `txid = calculate_hash()`. -/
def Transaction.construct (sha256hex : String → String) (reprNum : ℚ → String)
    (inputs : List TxInput) (outputs : List TxOutput) (timestamp : ℚ) : Transaction :=
  let tx0 : Transaction := ⟨inputs, outputs, timestamp, ""⟩
  { tx0 with txid := Transaction.calculate_hash sha256hex reprNum tx0 }

/-- The preimage string of `Block.calculate_hash`:
`json.dumps({'index', 'timestamp', 'merkle_root', 'previous_hash', 'nonce'}, sort_keys=True)`;
sorted keys: `index`, `merkle_root`, `nonce`, `previous_hash`, `timestamp`.
The transactions are not part of the header preimage. -/
def blockHeaderPreimage (reprNum : ℚ → String) (b : Block) : String :=
  "\x7b\"index\": " ++ toString b.index ++
  ", \"merkle_root\": " ++ jsonStr b.merkle_root ++
  ", \"nonce\": " ++ toString b.nonce ++
  ", \"previous_hash\": " ++ jsonStr b.previous_hash ++
  ", \"timestamp\": " ++ reprNum b.timestamp ++ "\x7d"

/-- `Block.calculate_hash`. -/
def Block.calculate_hash (sha256hex : String → String) (reprNum : ℚ → String)
    (b : Block) : String :=
  sha256hex (blockHeaderPreimage reprNum b)

/-- One level of the Merkle fold: hash adjacent pairs
(`combined = tx_hashes[i] + tx_hashes[i+1]`); levels are always of even
length when this runs. -/
def merklePairs (sha256hex : String → String) : List String → List String
  | a :: b :: rest => sha256hex (a ++ b) :: merklePairs sha256hex rest
  | l => l

/-- The `while len(tx_hashes) > 1` loop of `Block.calculate_merkle_root`,
duplicating the last element whenever a level of odd length > 1 arises. -/
def merkleLoop (sha256hex : String → String) : Nat → List String → String
  | 0, l => l.headD ""
  | fuel + 1, l =>
      if l.length ≤ 1 then l.headD ""
      else
        let nl := merklePairs sha256hex l
        let nl' := if nl.length % 2 = 1 ∧ 1 < nl.length then nl ++ [nl.getLastD ""] else nl
        merkleLoop sha256hex fuel nl'

/-- `Block.calculate_merkle_root`: SHA-256 of the empty string for no
transactions; otherwise duplicate the last txid when the list has odd
length and fold pairwise.  The level count is bounded by the list length,
so the list length is sufficient fuel. -/
def Block.calculate_merkle_root (sha256hex : String → String)
    (transactions : List Transaction) : String :=
  if transactions.isEmpty then sha256hex ""
  else
    let txHashes := transactions.map (·.txid)
    let txHashes := if txHashes.length % 2 = 1 then txHashes ++ [txHashes.getLastD ""] else txHashes
    merkleLoop sha256hex txHashes.length txHashes

/-- `Block.__post_init__` with `merkle_root is None` and `hash is None`:
compute the Merkle root, then the header hash at the given nonce (0 by
default in every in-tree construction). -/
def Block.construct (sha256hex : String → String) (reprNum : ℚ → String)
    (index : Nat) (timestamp : ℚ) (transactions : List Transaction)
    (previous_hash : String) : Block :=
  let b0 : Block :=
    { index := index, timestamp := timestamp, transactions := transactions,
      previous_hash := previous_hash, nonce := 0, hash := "",
      merkle_root := Block.calculate_merkle_root sha256hex transactions }
  { b0 with hash := Block.calculate_hash sha256hex reprNum b0 }

/-- `hash.startswith('0' * difficulty)`. -/
def powOk (hash : String) (difficulty : Nat) : Bool :=
  (List.replicate difficulty '0').isPrefixOf hash.data

/-- Number of leading `'0'` hex characters of a hash string. -/
def leadingZeros (hash : String) : Nat :=
  (hash.data.takeWhile (· == '0')).length

/-- `Block.mine_block`: increment the nonce and recompute the header hash
until the hash meets the difficulty prefix.  The loop checks its condition
before each body execution; `fuel` bounds the number of iterations still
allowed, `none` meaning the loop has not yet terminated.  The loop consults
no cancellation flag. -/
def Block.mine_block (sha256hex : String → String) (reprNum : ℚ → String)
    (difficulty : Nat) : Nat → Block → Option Block
  | 0, b => if powOk b.hash difficulty then some b else none
  | fuel + 1, b =>
      if powOk b.hash difficulty then some b
      else
        let b' := { b with nonce := b.nonce + 1 }
        Block.mine_block sha256hex reprNum difficulty fuel
          { b' with hash := Block.calculate_hash sha256hex reprNum b' }

/-- `Blockchain.difficulty` property:
`max(1, base_difficulty + chain_length // difficulty_interval)`, where the
constructor already clamped the interval via `max(1, difficulty_interval)`. -/
def currentDifficulty (base interval chainLength : Nat) : Nat :=
  max 1 (base + chainLength / max 1 interval)

/-- `Blockchain.mining_reward = 10.2`. -/
def miningReward : ℚ := 51 / 5

/-- Insertion into a sorted list of rationals (ascending). -/
def insertSorted (x : ℚ) : List ℚ → List ℚ
  | [] => [x]
  | y :: ys => if x ≤ y then x :: y :: ys else y :: insertSorted x ys

/-- Insertion sort over rationals, used to model `statistics.median`'s
internal sort. -/
def sortQ (l : List ℚ) : List ℚ := l.foldr insertSorted []

/-- `statistics.median`: middle element for odd length, mean of the two
middle elements for even length (0 on the empty list, which the caller
rules out). -/
def medianQ (l : List ℚ) : ℚ :=
  let s := sortQ l
  let n := s.length
  if n = 0 then 0
  else if n % 2 = 1 then s.getD (n / 2) 0
  else (s.getD (n / 2 - 1) 0 + s.getD (n / 2) 0) / 2

/-- `Blockchain.median_time_past`: median timestamp of up to 11 blocks
prior to `index` (`chain[max(0, index-11) : index]`), 0 when there are
none.  Indices are within range in every validation call. -/
def median_time_past (chain : List Block) (index : Nat) : ℚ :=
  if index = 0 then 0
  else
    let start := index - 11
    let times := ((chain.drop start).take (index - start)).map (·.timestamp)
    if times.isEmpty then 0 else medianQ times

/-- `Blockchain.is_block_timestamp_valid`: reject a timestamp more than two
hours (7200 s) past `now`; for a block of positive index over a non-empty
chain, reject a timestamp below the median time past — but only when that
median is non-zero (`if median and block.timestamp < median`, a Python
truthiness test). -/
def is_block_timestamp_valid (chain : List Block) (now : ℚ) (b : Block) : Bool :=
  if now + 2 * 3600 < b.timestamp then false
  else if 0 < b.index ∧ 0 < chain.length then
    let m := median_time_past chain b.index
    if m ≠ 0 ∧ b.timestamp < m then false else true
  else true

/-- The four checks the `is_chain_valid` loop applies to the block at
position `i ≥ 1`: timestamp rule, stored hash matches the recomputed header
hash, `previous_hash` links to the predecessor, and proof-of-work at the
blockchain's *current* difficulty (derived from the whole chain length). -/
def blockCheck (sha256hex : String → String) (reprNum : ℚ → String)
    (base interval : Nat) (chain : List Block) (now : ℚ) (i : Nat) : Bool :=
  match chain[i]?, chain[i - 1]? with
  | some cur, some prev =>
      is_block_timestamp_valid chain now cur &&
      (cur.hash == Block.calculate_hash sha256hex reprNum cur) &&
      (cur.previous_hash == prev.hash) &&
      powOk cur.hash (currentDifficulty base interval chain.length)
  | _, _ => true

/-- `Blockchain.is_chain_valid`: run the four checks for `i in range(1, len(chain))`,
then check the genesis block's timestamp. -/
def is_chain_valid (sha256hex : String → String) (reprNum : ℚ → String)
    (base interval : Nat) (chain : List Block) (now : ℚ) : Bool :=
  (List.range' 1 (chain.length - 1)).all (blockCheck sha256hex reprNum base interval chain now) &&
  (match chain[0]? with
    | some g => is_block_timestamp_valid chain now g
    | none => true)

/-- The index printed by the first failing check of `is_chain_valid`
(the loop reports the first failing `i ≥ 1`; the trailing genesis
timestamp check reports index 0). -/
def firstFailingIndex (sha256hex : String → String) (reprNum : ℚ → String)
    (base interval : Nat) (chain : List Block) (now : ℚ) : Option Nat :=
  match (List.range' 1 (chain.length - 1)).find?
      (fun i => ! blockCheck sha256hex reprNum base interval chain now i) with
  | some i => some i
  | none =>
      match chain[0]? with
      | some g => if is_block_timestamp_valid chain now g then none else some 0
      | none => none

/-- The UTXO set `utxo_set: Dict[str, List[Dict]]` as an insertion-ordered
association list; a `none` element is the spent sentinel (`None`). -/
abbrev UtxoSet := List (String × List (Option TxOutput))

/-- Dictionary lookup `utxo_set.get(txid)` / `txid in utxo_set`. -/
def lookupUtxo : UtxoSet → String → Option (List (Option TxOutput))
  | [], _ => none
  | (k, v) :: rest, t => if k = t then some v else lookupUtxo rest t

/-- Dictionary assignment `utxo_set[txid] = outputs`: replace in place when
the key exists, append otherwise (`dict` insertion order). -/
def setUtxo : UtxoSet → String → List (Option TxOutput) → UtxoSet
  | [], k, v => [(k, v)]
  | (k', v') :: rest, k, v =>
      if k' = k then (k, v) :: rest else (k', v') :: setUtxo rest k v

/-- The per-input body of `update_utxo_set`: when the referenced txid is a
key and the vout is within range, mark that output spent (`None`);
otherwise do nothing. -/
def spendInput (u : UtxoSet) (inp : TxInput) : UtxoSet :=
  match lookupUtxo u inp.txid with
  | none => u
  | some outs =>
      if inp.vout < outs.length then setUtxo u inp.txid (outs.set inp.vout none) else u

/-- The per-transaction body of `update_utxo_set`: spend each input, then
store (copies of) the transaction's outputs under its txid. -/
def applyTx (u : UtxoSet) (tx : Transaction) : UtxoSet :=
  setUtxo (tx.inputs.foldl spendInput u) tx.txid (tx.outputs.map some)

/-- `Blockchain.update_utxo_set`. -/
def update_utxo_set (u : UtxoSet) (b : Block) : UtxoSet :=
  b.transactions.foldl applyTx u

/-- Inner loop of `Blockchain.get_balance` over one entry's outputs:
`if output and output.get('address') == address: balance += output.get('amount', 0)`. -/
def outputsBalance (addr : String) (acc : ℚ) (outs : List (Option TxOutput)) : ℚ :=
  outs.foldl
    (fun a o =>
      match o with
      | some out => if out.address = addr then a + out.amount else a
      | none => a)
    acc

/-- `Blockchain.get_balance`. -/
def get_balance (u : UtxoSet) (addr : String) : ℚ :=
  u.foldl (fun acc e => outputsBalance addr acc e.2) 0

/-- Selects the amount of an output exactly when it is live (not the spent
sentinel) and credited to `addr` — the entries a balance query aggregates. -/
def livePick (addr : String) (o : Option TxOutput) : Option ℚ :=
  match o with
  | some out => if out.address = addr then some out.amount else none
  | none => none

/-- The live amounts credited to `addr`, in iteration order. -/
def liveAmounts (u : UtxoSet) (addr : String) : List ℚ :=
  u.foldr (fun e acc => e.2.filterMap (livePick addr) ++ acc) []

/-- The `used: Dict[str, List[int]]` map of `find_spendable_outputs`. -/
abbrev UsedMap := List (String × List Nat)

/-- `if txid not in used: used[txid] = []` followed by `used[txid].append(idx)`. -/
def addUsed : UsedMap → String → Nat → UsedMap
  | [], t, i => [(t, [i])]
  | (k, v) :: rest, t, i =>
      if k = t then (k, v ++ [i]) :: rest else (k, v) :: addUsed rest t i

/-- Inner loop of `find_spendable_outputs` over one entry's outputs
(`for idx, out in enumerate(outputs)`); the boolean result records whether
the early `return accumulated, used` on `accumulated >= amount` fired. -/
def fsoOuts (addr : String) (amount : ℚ) (txid : String) :
    List (Option TxOutput) → Nat → ℚ → UsedMap → ℚ × UsedMap × Bool
  | [], _, acc, used => (acc, used, false)
  | o :: rest, i, acc, used =>
      match o with
      | some out =>
          if out.address = addr then
            let used' := addUsed used txid i
            let acc' := acc + out.amount
            if amount ≤ acc' then (acc', used', true)
            else fsoOuts addr amount txid rest (i + 1) acc' used'
          else fsoOuts addr amount txid rest (i + 1) acc used
      | none => fsoOuts addr amount txid rest (i + 1) acc used

/-- Outer loop of `find_spendable_outputs` over the UTXO entries. -/
def fsoGo (addr : String) (amount : ℚ) : UtxoSet → ℚ → UsedMap → ℚ × UsedMap
  | [], acc, used => (acc, used)
  | (txid, outs) :: rest, acc, used =>
      match fsoOuts addr amount txid outs 0 acc used with
      | (acc', used', true) => (acc', used')
      | (acc', used', false) => fsoGo addr amount rest acc' used'

/-- `Blockchain.find_spendable_outputs`. -/
def find_spendable_outputs (u : UtxoSet) (addr : String) (amount : ℚ) : ℚ × UsedMap :=
  fsoGo addr amount u 0 []

/-- A wallet as `create_transaction` uses it: its address, its public key
hex, and its ECDSA signing function over the txid string
(`Wallet.sign_transaction`). -/
structure WalletModel where
  address : String
  pubkeyHex : String
  sign : String → String

/-- `Blockchain.create_transaction`: greedy coin selection, `None` on
shortfall (the walrus `if accumb := acc < amount` evaluates `acc < amount`),
inputs referencing the selected outputs with the wallet's public key,
outputs paying the recipient plus positive change, then the wallet's
signature over the txid attached to every input. -/
def create_transaction (sha256hex : String → String) (reprNum : ℚ → String)
    (u : UtxoSet) (w : WalletModel) (to_address : String) (amount ts : ℚ) :
    Option Transaction :=
  let fso := find_spendable_outputs u w.address amount
  if fso.1 < amount then none
  else
    let inputs :=
      (fso.2.map (fun p => p.2.map (fun v => TxInput.mk p.1 v (some w.pubkeyHex) none))).flatten
    let change := fso.1 - amount
    let outputs :=
      TxOutput.mk to_address amount ::
        (if 0 < change then [TxOutput.mk w.address change] else [])
    let tx := Transaction.construct sha256hex reprNum inputs outputs ts
    let sig := w.sign tx.txid
    some { tx with inputs := tx.inputs.map (fun i => { i with signature := some sig }) }

/-- The per-input body of `Transaction.verify`: missing signature or public
key fails; the referenced UTXO must exist, the vout be in range and the
output unspent; the address derived from the public key must match; the
ECDSA check (with its `try/except` returning `False`) must pass. -/
def checkInput (sigVerify : String → String → String → Bool)
    (addrOf : String → String) (u : UtxoSet) (message : String) (inp : TxInput) : Bool :=
  match inp.signature, inp.pubkey with
  | some sig, some pk =>
      match lookupUtxo u inp.txid with
      | none => false
      | some outs =>
          match outs[inp.vout]? with
          | none => false
          | some none => false
          | some (some refOut) =>
              (addrOf pk == refOut.address) && sigVerify pk sig message
  | _, _ => false

/-- `Transaction.verify`: every input passes `checkInput` against the
message `self.calculate_hash()` (recomputed, signatures excluded); a
transaction with no inputs passes vacuously. -/
def Transaction.verify (sha256hex : String → String) (reprNum : ℚ → String)
    (sigVerify : String → String → String → Bool) (addrOf : String → String)
    (tx : Transaction) (u : UtxoSet) : Bool :=
  tx.inputs.all
    (checkInput sigVerify addrOf u (Transaction.calculate_hash sha256hex reprNum tx))

/-- What the spec demands of one non-coinbase input (refinement target,
following the claim's words): the referenced `(txid, vout)` exists in the
UTXO set and is unspent, the address derived from the supplied public key
equals the referenced output's address, and the signature verifies against
the message. -/
def InputSpendable (sigVerify : String → String → String → Bool)
    (addrOf : String → String) (u : UtxoSet) (message : String) (inp : TxInput) : Prop :=
  ∃ pk sig outs refOut,
    inp.pubkey = some pk ∧ inp.signature = some sig ∧
    lookupUtxo u inp.txid = some outs ∧
    outs[inp.vout]? = some (some refOut) ∧
    addrOf pk = refOut.address ∧
    sigVerify pk sig message = true

/-- The mutable chain-engine state: chain, pending pool, UTXO set. -/
structure BCState where
  chain : List Block
  pending : List Transaction
  utxo : UtxoSet
deriving DecidableEq, Repr

/-- Placeholder for `chain[-1]` on an empty chain (unreachable: every
constructed blockchain starts with a genesis block). -/
def dummyBlock : Block := ⟨0, 0, [], "", 0, "", ""⟩

/-- `Blockchain.mine_pending_transactions`: build the coinbase, prepend it
to the pending pool, build the candidate block at height `len(chain)` on
the current tip, and solve proof-of-work at the current difficulty.
`Block.mine_block` consults no flag; `mining_cancel` (reset to `False` at
entry, possibly set concurrently by `cancel_mining` while the nonce loop
runs) is read once, after the loop returns: `cancelSetDuringMining` is its
value at that check.  When it is set, the solved block is discarded and the
state is returned unchanged; otherwise the block is appended, the UTXO set
updated and the pending pool cleared.  `none` means the nonce loop is still
running (fuel exhausted). -/
def mine_pending_transactions (sha256hex : String → String) (reprNum : ℚ → String)
    (base interval fuel : Nat) (st : BCState) (mining_reward_address : String)
    (tsCoinbase tsBlock : ℚ) (cancelSetDuringMining : Bool) : Option BCState :=
  let coinbase := Transaction.construct sha256hex reprNum []
      [TxOutput.mk mining_reward_address miningReward] tsCoinbase
  let transactions := coinbase :: st.pending
  let newBlock := Block.construct sha256hex reprNum st.chain.length tsBlock transactions
      (st.chain.getLastD dummyBlock).hash
  match Block.mine_block sha256hex reprNum
      (currentDifficulty base interval st.chain.length) fuel newBlock with
  | none => none
  | some solved =>
      if cancelSetDuringMining then some st
      else
        some { chain := st.chain ++ [solved], pending := [],
               utxo := update_utxo_set st.utxo solved }

/-- `P2PNode._receive_chain` handling `SEND_CHAIN`: reject an empty or
not-strictly-longer candidate (`not chain_data or len(chain_data) <= len(chain)`;
emptiness is subsumed by the length test), validate it on a scratch
blockchain sharing `base_difficulty` and `difficulty_interval`, and on
success swap the chain in and rebuild the UTXO set from scratch by
replaying every block.  The pending pool is not touched. -/
def receive_chain (sha256hex : String → String) (reprNum : ℚ → String)
    (base interval : Nat) (st : BCState) (chainData : List Block) (now : ℚ) : BCState :=
  if chainData.length ≤ st.chain.length then st
  else if is_chain_valid sha256hex reprNum base interval chainData now then
    { chain := chainData,
      pending := st.pending,
      utxo := chainData.foldl update_utxo_set [] }
  else st

/-- A concrete stand-in hash for counterexamples: it returns `"0"` exactly
on a block-header preimage whose tail shows nonce 1, previous hash `"P"`
and number rendering `"T"`, and `"1"` otherwise — so proof-of-work at
difficulty 1 fails at nonce 0 and is solved exactly at nonce 1. -/
def nonceProbeHash (s : String) : String :=
  if ("1, \"previous_hash\": \"P\", \"timestamp\": T\x7d".data).isSuffixOf s.data
  then "0" else "1"

/-- Constant number rendering used alongside `nonceProbeHash`. -/
def constT : ℚ → String := fun _ => "T"

/-! ### Association-list lemmas for the UTXO set -/

theorem lookupUtxo_setUtxo_self (u : UtxoSet) (k : String) (v : List (Option TxOutput)) :
    lookupUtxo (setUtxo u k v) k = some v := by
  induction u with
  | nil => simp [setUtxo, lookupUtxo]
  | cons e rest ih =>
      obtain ⟨k', v'⟩ := e
      by_cases h : k' = k
      · simp [setUtxo, h, lookupUtxo]
      · simp [setUtxo, h, lookupUtxo, ih]

theorem lookupUtxo_setUtxo_ne (u : UtxoSet) (k t : String) (v : List (Option TxOutput))
    (h : k ≠ t) : lookupUtxo (setUtxo u k v) t = lookupUtxo u t := by
  induction u with
  | nil => simp [setUtxo, lookupUtxo, h]
  | cons e rest ih =>
      obtain ⟨k', v'⟩ := e
      by_cases hk : k' = k
      · subst hk; simp [setUtxo, lookupUtxo, h]
      · by_cases ht : k' = t
        · subst ht
          simp [setUtxo, hk, lookupUtxo]
        · simp [setUtxo, hk, lookupUtxo, ht, ih]

/-- `spendInput` only ever writes the spent sentinel: a position already
spent stays spent. -/
theorem spendInput_preserves_spent (u : UtxoSet) (inp : TxInput) (t : String) (v : Nat)
    (outs : List (Option TxOutput)) (hl : lookupUtxo u t = some outs)
    (hv : outs[v]? = some none) :
    ∃ outs', lookupUtxo (spendInput u inp) t = some outs' ∧ outs'[v]? = some none := by
  unfold spendInput
  cases hlt : lookupUtxo u inp.txid with
  | none => exact ⟨outs, hl, hv⟩
  | some os =>
      by_cases hlen : inp.vout < os.length
      · simp only [hlen, if_true]
        by_cases ht : inp.txid = t
        · subst ht
          rw [hlt] at hl
          have hos : os = outs := Option.some.inj hl
          refine ⟨List.set os inp.vout none, lookupUtxo_setUtxo_self .., ?_⟩
          by_cases hvv : inp.vout = v
          · subst hvv; simp [List.getElem?_set_self hlen]
          · rw [List.getElem?_set_ne hvv, hos]; exact hv
        · rw [lookupUtxo_setUtxo_ne _ _ _ _ ht]; exact ⟨outs, hl, hv⟩
      · simp only [hlen, if_false]; exact ⟨outs, hl, hv⟩

theorem spendFold_preserves_spent (inps : List TxInput) (u : UtxoSet) (t : String)
    (v : Nat) (outs : List (Option TxOutput)) (hl : lookupUtxo u t = some outs)
    (hv : outs[v]? = some none) :
    ∃ outs', lookupUtxo (inps.foldl spendInput u) t = some outs' ∧ outs'[v]? = some none := by
  induction inps generalizing u outs with
  | nil => exact ⟨outs, hl, hv⟩
  | cons i rest ih =>
      obtain ⟨outs', hl', hv'⟩ := spendInput_preserves_spent u i t v outs hl hv
      exact ih (spendInput u i) outs' hl' hv'

/-- Applying a transaction whose txid differs from `t` keeps a spent
position of entry `t` spent. -/
theorem applyTx_preserves_spent (u : UtxoSet) (tx : Transaction) (t : String) (v : Nat)
    (outs : List (Option TxOutput)) (htx : tx.txid ≠ t)
    (hl : lookupUtxo u t = some outs) (hv : outs[v]? = some none) :
    ∃ outs', lookupUtxo (applyTx u tx) t = some outs' ∧ outs'[v]? = some none := by
  unfold applyTx
  obtain ⟨outs', hl', hv'⟩ := spendFold_preserves_spent tx.inputs u t v outs hl hv
  exact ⟨outs', by rw [lookupUtxo_setUtxo_ne _ _ _ _ htx]; exact hl', hv'⟩

theorem update_utxo_set_preserves_spent (b : Block) (u : UtxoSet) (t : String) (v : Nat)
    (outs : List (Option TxOutput)) (hb : ∀ tx ∈ b.transactions, tx.txid ≠ t)
    (hl : lookupUtxo u t = some outs) (hv : outs[v]? = some none) :
    ∃ outs', lookupUtxo (update_utxo_set u b) t = some outs' ∧ outs'[v]? = some none := by
  unfold update_utxo_set
  revert hb
  induction b.transactions generalizing u outs with
  | nil => intro _; exact ⟨outs, hl, hv⟩
  | cons tx rest ih =>
      intro hb
      obtain ⟨outs', hl', hv'⟩ :=
        applyTx_preserves_spent u tx t v outs (hb tx (by simp)) hl hv
      exact ih (applyTx u tx) outs' hl' hv' (fun tx' h => hb tx' (by simp [h]))

/-! ### Balance aggregation lemmas -/

theorem outputsBalance_eq_sum (addr : String) (outs : List (Option TxOutput)) :
    ∀ acc : ℚ, outputsBalance addr acc outs = acc + (outs.filterMap (livePick addr)).sum := by
  induction outs with
  | nil => intro acc; simp [outputsBalance]
  | cons o rest ih =>
      intro acc
      cases o with
      | none => simpa [outputsBalance, livePick, List.filterMap_cons] using ih acc
      | some out =>
          by_cases h : out.address = addr
          · have := ih (acc + out.amount)
            simp only [outputsBalance, List.foldl_cons, h, if_true] at this ⊢
            simp [livePick, h, this, add_assoc]
          · have := ih acc
            simp only [outputsBalance, List.foldl_cons, h, if_false] at this ⊢
            simp [livePick, h, this]

theorem get_balance_foldl (addr : String) (u : UtxoSet) :
    ∀ acc : ℚ,
      u.foldl (fun acc e => outputsBalance addr acc e.2) acc
        = acc + (liveAmounts u addr).sum := by
  induction u with
  | nil => intro acc; simp [liveAmounts]
  | cons e rest ih =>
      intro acc
      simp only [List.foldl_cons]
      rw [ih, outputsBalance_eq_sum]
      simp [liveAmounts, add_assoc]

/-- **C10.** `update_utxo_set` is total and never rejects: it is a plain
function of the previous set and the block (`update_utxo_set u b =
foldl applyTx u b.transactions`), an input whose referenced txid is not a
key of the UTXO set or whose vout is out of range for the referenced entry
leaves the set unchanged (silently skipped), and each transaction's outputs
are always inserted under its txid, overwriting any existing entry that
already uses that key. -/
theorem update_utxo_set_skips_and_overwrites :
    ∀ (u : UtxoSet) (inp : TxInput) (tx : Transaction) (b : Block),
      ((∀ outs, lookupUtxo u inp.txid = some outs → outs.length ≤ inp.vout) →
        spendInput u inp = u) ∧
      lookupUtxo (applyTx u tx) tx.txid = some (tx.outputs.map some) ∧
      update_utxo_set u b = b.transactions.foldl applyTx u := by
  intro u inp tx b
  refine ⟨?_, ?_, rfl⟩
  · intro hskip
    unfold spendInput
    cases hlt : lookupUtxo u inp.txid with
    | none => rfl
    | some os =>
        have hle := hskip os hlt
        simp [Nat.not_lt.mpr hle]
  · unfold applyTx
    exact lookupUtxo_setUtxo_self ..

/-- Witness for C10 at concrete inputs: an input referencing absent txid
`"b"` is skipped, and a transaction with txid `"a"` overwrites the existing
`"a"` entry with its own outputs. -/
theorem update_utxo_set_skips_and_overwrites_witness :
    spendInput [("a", [some ⟨"x", 5⟩])] ⟨"b", 0, none, none⟩ = [("a", [some ⟨"x", 5⟩])] ∧
    lookupUtxo (applyTx [("a", [some ⟨"x", 5⟩])] ⟨[], [⟨"z", 7⟩], 0, "a"⟩) "a"
      = some [some ⟨"z", 7⟩] :=
  ⟨(update_utxo_set_skips_and_overwrites [("a", [some ⟨"x", 5⟩])] ⟨"b", 0, none, none⟩
      ⟨[], [⟨"z", 7⟩], 0, "a"⟩ dummyBlock).1
      (fun outs h => Option.noConfusion (show (none : Option (List (Option TxOutput))) = some outs from h)),
   (update_utxo_set_skips_and_overwrites [("a", [some ⟨"x", 5⟩])] ⟨"b", 0, none, none⟩
      ⟨[], [⟨"z", 7⟩], 0, "a"⟩ dummyBlock).2.1⟩

/-- **C5 (amended).** Once a position `(txid, vout)` of the UTXO set has
been marked spent, further applications of `update_utxo_set` keep it spent
*provided no transaction of the applied blocks carries that same txid*
(a transaction reusing the txid overwrites the entry with live outputs —
see the counterexample); and every balance query is exactly the sum of the
live (non-sentinel) entries whose address matches. -/
theorem utxo_spent_stays_spent_and_balance_live :
    (∀ (blocks : List Block) (u : UtxoSet) (t : String) (v : Nat)
        (outs : List (Option TxOutput)),
      lookupUtxo u t = some outs → outs[v]? = some none →
      (∀ b ∈ blocks, ∀ tx ∈ b.transactions, tx.txid ≠ t) →
      ∃ outs', lookupUtxo (blocks.foldl update_utxo_set u) t = some outs' ∧
        outs'[v]? = some none) ∧
    ∀ (u : UtxoSet) (addr : String), get_balance u addr = (liveAmounts u addr).sum := by
  constructor
  · intro blocks
    induction blocks with
    | nil => intro u t v outs hl hv _; exact ⟨outs, hl, hv⟩
    | cons b rest ih =>
        intro u t v outs hl hv hb
        obtain ⟨outs', hl', hv'⟩ :=
          update_utxo_set_preserves_spent b u t v outs (hb b (by simp)) hl hv
        exact ih (update_utxo_set u b) t v outs' hl' hv' (fun b' h => hb b' (by simp [h]))
  · intro u addr
    simpa [get_balance] using get_balance_foldl addr u 0

/-- **C5 counterexample.** The claim as frozen is false on the code: after
`update_utxo_set` marks position `("a", 0)` spent, applying it to a block
containing a transaction whose txid is also `"a"` makes that position live
again (the entry is overwritten with the transaction's outputs). -/
theorem utxo_spent_revived_by_txid_reuse :
    lookupUtxo
        (update_utxo_set [("a", [some ⟨"x", 5⟩])]
          ⟨1, 0, [⟨[⟨"a", 0, none, none⟩], [⟨"y", 5⟩], 0, "b"⟩], "p", 0, "h1", "m"⟩)
        "a" = some [none] ∧
    lookupUtxo
        (update_utxo_set
          (update_utxo_set [("a", [some ⟨"x", 5⟩])]
            ⟨1, 0, [⟨[⟨"a", 0, none, none⟩], [⟨"y", 5⟩], 0, "b"⟩], "p", 0, "h1", "m"⟩)
          ⟨2, 0, [⟨[], [⟨"z", 7⟩], 0, "a"⟩], "h1", 0, "h2", "m"⟩)
        "a" = some [some ⟨"z", 7⟩] :=
  ⟨rfl, rfl⟩

/-- Witness for the amended C5: a spent position survives a block whose
only transaction has a different txid. -/
theorem utxo_spent_stays_spent_witness :
    ∃ outs', lookupUtxo
        (List.foldl update_utxo_set [("a", [none]), ("b", [some ⟨"y", 5⟩])]
          [⟨2, 0, [⟨[], [⟨"w", 3⟩], 0, "c"⟩], "h1", 0, "h2", "m"⟩])
        "a" = some outs' ∧ outs'[0]? = some none :=
  utxo_spent_stays_spent_and_balance_live.1
    [⟨2, 0, [⟨[], [⟨"w", 3⟩], 0, "c"⟩], "h1", 0, "h2", "m"⟩]
    [("a", [none]), ("b", [some ⟨"y", 5⟩])] "a" 0 [none]
    rfl rfl (by decide)

/-! ### Serialization lemmas -/

/-- The serialized form of an input does not mention its signature. -/
theorem serializeInput_signature_irrelevant (a b : TxInput)
    (h1 : a.txid = b.txid) (h2 : a.vout = b.vout) (h3 : a.pubkey = b.pubkey) :
    serializeInput a = serializeInput b := by
  simp [serializeInput, h1, h2, h3]

theorem map_serializeInput_signature_irrelevant (l l' : List TxInput)
    (h : List.Forall₂
      (fun a b : TxInput => a.txid = b.txid ∧ a.vout = b.vout ∧ a.pubkey = b.pubkey) l l') :
    l.map serializeInput = l'.map serializeInput := by
  induction h with
  | nil => rfl
  | cons hab _ ih =>
      simp only [List.map_cons, ih,
        serializeInput_signature_irrelevant _ _ hab.1 hab.2.1 hab.2.2]

/-- **C4.** The txid computed by `Transaction.calculate_hash` is the
SHA-256 digest of the sorted-key JSON serialization of the inputs with
their signature fields removed, the outputs and the timestamp; hence it is
invariant under attaching or removing signature fields on any of the
inputs (any two transactions equal except for input signatures share it). -/
theorem txid_ignores_signatures :
    ∀ (sha256hex : String → String) (reprNum : ℚ → String) (tx tx' : Transaction),
      tx.outputs = tx'.outputs → tx.timestamp = tx'.timestamp →
      List.Forall₂
        (fun a b : TxInput => a.txid = b.txid ∧ a.vout = b.vout ∧ a.pubkey = b.pubkey)
        tx.inputs tx'.inputs →
      Transaction.calculate_hash sha256hex reprNum tx
          = Transaction.calculate_hash sha256hex reprNum tx' ∧
      Transaction.calculate_hash sha256hex reprNum tx
          = sha256hex (txPreimage reprNum
              { tx with inputs := tx.inputs.map (fun i => { i with signature := none }) }) := by
  intro sha256hex reprNum tx tx' ho ht hf
  constructor
  · unfold Transaction.calculate_hash txPreimage
    rw [map_serializeInput_signature_irrelevant _ _ hf, ho, ht]
  · unfold Transaction.calculate_hash txPreimage
    have : tx.inputs.map serializeInput
        = (tx.inputs.map (fun i => { i with signature := none })).map serializeInput := by
      rw [List.map_map]
      exact List.map_congr_left (fun a _ => serializeInput_signature_irrelevant _ _ rfl rfl rfl)
    rw [this]

/-- Witness for C4: attaching a signature to the only input leaves the
txid unchanged. -/
theorem txid_ignores_signatures_witness :
    Transaction.calculate_hash (fun s => s) (fun _ => "T")
        ⟨[⟨"a", 0, some "pk", some "sig"⟩], [⟨"r", 1⟩], 0, ""⟩
      = Transaction.calculate_hash (fun s => s) (fun _ => "T")
        ⟨[⟨"a", 0, some "pk", none⟩], [⟨"r", 1⟩], 0, ""⟩ :=
  (txid_ignores_signatures (fun s => s) (fun _ => "T")
      ⟨[⟨"a", 0, some "pk", some "sig"⟩], [⟨"r", 1⟩], 0, ""⟩
      ⟨[⟨"a", 0, some "pk", none⟩], [⟨"r", 1⟩], 0, ""⟩
      rfl rfl (List.Forall₂.cons ⟨rfl, rfl, rfl⟩ List.Forall₂.nil)).1

/-- `checkInput` succeeds exactly on inputs satisfying the spec-side
per-input predicate. -/
theorem checkInput_eq_true_iff (sigVerify : String → String → String → Bool)
    (addrOf : String → String) (u : UtxoSet) (msg : String) (inp : TxInput) :
    checkInput sigVerify addrOf u msg inp = true ↔
      InputSpendable sigVerify addrOf u msg inp := by
  unfold checkInput InputSpendable
  cases hsig : inp.signature with
  | none => simp [hsig]
  | some sig =>
      cases hpk : inp.pubkey with
      | none => simp [hpk]
      | some pk =>
          cases hl : lookupUtxo u inp.txid with
          | none => simp [hsig, hpk, hl]
          | some outs =>
              cases hg : outs[inp.vout]? with
              | none => simp [hsig, hpk, hl, hg]
              | some o =>
                  cases o with
                  | none => simp [hsig, hpk, hl, hg]
                  | some refOut =>
                      simp [hsig, hpk, hl, hg, Bool.and_eq_true, beq_iff_eq]

/-- **C3.** `Transaction.verify` returns `True` exactly when every input
references an existing, unspent UTXO whose address matches the supplied
public key and carries a signature verifying against the recomputed
(signature-free) hash; one failing input fails the whole transaction, and a
transaction with no inputs (coinbase) verifies trivially. -/
theorem verify_iff_all_inputs_spendable :
    ∀ (sha256hex : String → String) (reprNum : ℚ → String)
      (sigVerify : String → String → String → Bool) (addrOf : String → String)
      (tx : Transaction) (u : UtxoSet),
      (Transaction.verify sha256hex reprNum sigVerify addrOf tx u = true ↔
        ∀ inp ∈ tx.inputs,
          InputSpendable sigVerify addrOf u
            (Transaction.calculate_hash sha256hex reprNum tx) inp) ∧
      (tx.inputs = [] → Transaction.verify sha256hex reprNum sigVerify addrOf tx u = true) := by
  intro sha256hex reprNum sigVerify addrOf tx u
  constructor
  · simp only [Transaction.verify, List.all_eq_true]
    exact ⟨fun h inp hm => (checkInput_eq_true_iff ..).mp (h inp hm),
           fun h inp hm => (checkInput_eq_true_iff ..).mpr (h inp hm)⟩
  · intro h
    simp [Transaction.verify, h]

/-- Witness for C3: a coinbase (no inputs) verifies trivially, and a
single-input transaction whose referenced UTXO is live with a matching
address and passing signature verifies through the equivalence. -/
theorem verify_iff_all_inputs_spendable_witness :
    Transaction.verify (fun s => s) (fun _ => "T") (fun _ _ _ => true) (fun _ => "A")
        ⟨[], [⟨"r", 1⟩], 0, "t"⟩ [] = true ∧
    Transaction.verify (fun s => s) (fun _ => "T") (fun _ _ _ => true) (fun _ => "A")
        ⟨[⟨"t0", 0, some "pk", some "sg"⟩], [⟨"r", 1⟩], 0, "t"⟩
        [("t0", [some ⟨"A", 5⟩])] = true :=
  ⟨(verify_iff_all_inputs_spendable (fun s => s) (fun _ => "T") (fun _ _ _ => true)
      (fun _ => "A") ⟨[], [⟨"r", 1⟩], 0, "t"⟩ []).2 rfl,
   (verify_iff_all_inputs_spendable (fun s => s) (fun _ => "T") (fun _ _ _ => true)
      (fun _ => "A") ⟨[⟨"t0", 0, some "pk", some "sg"⟩], [⟨"r", 1⟩], 0, "t"⟩
      [("t0", [some ⟨"A", 5⟩])]).1.mpr
     (by
        intro inp hm
        simp only [List.mem_singleton] at hm
        subst hm
        exact ⟨"pk", "sg", [some ⟨"A", 5⟩], ⟨"A", 5⟩, rfl, rfl, rfl, rfl, rfl, rfl⟩)⟩

/-- **C7 counterexample.** The claim as frozen is false on the code: a
block of index 1 whose timestamp (−1) is strictly below the median (0) of
the preceding timestamps is *accepted*, because
`is_block_timestamp_valid` only applies the median test when the median is
non-zero (`if median and block.timestamp < median`). -/
theorem timestamp_rule_zero_median_counterexample :
    is_block_timestamp_valid [⟨0, 0, [], "0", 0, "g", "m"⟩] 0
        ⟨1, -1, [], "g", 0, "h", "m"⟩ = true ∧
    (⟨1, -1, [], "g", 0, "h", "m"⟩ : Block).timestamp
      < median_time_past [⟨0, 0, [], "0", 0, "g", "m"⟩]
          (⟨1, -1, [], "g", 0, "h", "m"⟩ : Block).index ∧
    0 < (⟨1, -1, [], "g", 0, "h", "m"⟩ : Block).index := by
  refine ⟨?_, ?_, ?_⟩
  · norm_num [is_block_timestamp_valid, median_time_past, medianQ, sortQ, insertSorted]
  · norm_num [median_time_past, medianQ, sortQ, insertSorted]
  · norm_num

/-- **C7 (amended).** A block whose timestamp exceeds `now + 7200` is
rejected and one at exactly `now + 7200` passes the future-bound (accepted
whenever the median condition is moot or satisfied); for a block of
positive index over a non-empty chain the median rule rejects a timestamp
strictly below the median of the up-to-11 preceding timestamps *only when
that median is non-zero* — a zero median disables the test. -/
theorem timestamp_rule_boundaries :
    ∀ (chain : List Block) (now : ℚ) (b : Block),
      (now + 7200 < b.timestamp → is_block_timestamp_valid chain now b = false) ∧
      (b.timestamp ≤ now + 7200 →
        (b.index = 0 ∨ chain.length = 0 ∨ median_time_past chain b.index = 0 ∨
          median_time_past chain b.index ≤ b.timestamp) →
        is_block_timestamp_valid chain now b = true) ∧
      (0 < b.index → 0 < chain.length → median_time_past chain b.index ≠ 0 →
        b.timestamp < median_time_past chain b.index →
        is_block_timestamp_valid chain now b = false) := by
  intro chain now b
  have h72 : now + 2 * 3600 = now + 7200 := by norm_num
  refine ⟨?_, ?_, ?_⟩
  · intro h
    unfold is_block_timestamp_valid
    rw [if_pos (by rw [h72]; exact h)]
  · intro h hcase
    unfold is_block_timestamp_valid
    rw [if_neg (by rw [h72]; exact not_lt.mpr h)]
    by_cases hidx : 0 < b.index ∧ 0 < chain.length
    · rw [if_pos hidx]
      have : ¬(median_time_past chain b.index ≠ 0 ∧
          b.timestamp < median_time_past chain b.index) := by
        rcases hcase with h0 | h0 | h0 | h0
        · omega
        · omega
        · exact fun hc => hc.1 h0
        · exact fun hc => absurd hc.2 (not_lt.mpr h0)
      rw [if_neg this]
    · rw [if_neg hidx]
  · intro hi hc hm hlt
    unfold is_block_timestamp_valid
    by_cases hfut : now + 2 * 3600 < b.timestamp
    · rw [if_pos hfut]
    · rw [if_neg hfut, if_pos ⟨hi, hc⟩, if_pos ⟨hm, hlt⟩]

/-- Witness for the amended C7: over an empty chain, a timestamp of exactly
`now + 7200` is accepted and `now + 7201` is rejected. -/
theorem timestamp_rule_boundaries_witness :
    is_block_timestamp_valid [] 0 ⟨0, 7200, [], "", 0, "h", "m"⟩ = true ∧
    is_block_timestamp_valid [] 0 ⟨0, 7201, [], "", 0, "h", "m"⟩ = false :=
  ⟨(timestamp_rule_boundaries [] 0 ⟨0, 7200, [], "", 0, "h", "m"⟩).2.1
      (by norm_num) (Or.inl rfl),
   (timestamp_rule_boundaries [] 0 ⟨0, 7201, [], "", 0, "h", "m"⟩).1 (by norm_num)⟩

/-- **C2.** `_receive_chain` adopts a candidate exactly when it is strictly
longer than the current chain and validates end-to-end (on a scratch
blockchain sharing the node's base difficulty and interval); on acceptance
the chain is swapped to the candidate and the UTXO set is rebuilt from
scratch by replaying every block of the new chain; on rejection chain and
UTXO set are unchanged. -/
theorem receive_chain_accepts_iff_longer_and_valid :
    ∀ (sha256hex : String → String) (reprNum : ℚ → String) (base interval : Nat)
      (st : BCState) (chainData : List Block) (now : ℚ),
      (st.chain.length < chainData.length ∧
          is_chain_valid sha256hex reprNum base interval chainData now = true →
        receive_chain sha256hex reprNum base interval st chainData now
          = { chain := chainData, pending := st.pending,
              utxo := chainData.foldl update_utxo_set [] }) ∧
      (¬(st.chain.length < chainData.length ∧
          is_chain_valid sha256hex reprNum base interval chainData now = true) →
        receive_chain sha256hex reprNum base interval st chainData now = st) := by
  intro sha256hex reprNum base interval st chainData now
  constructor
  · rintro ⟨hlen, hval⟩
    unfold receive_chain
    rw [if_neg (not_le.mpr hlen), if_pos hval]
  · intro h
    unfold receive_chain
    by_cases hlen : chainData.length ≤ st.chain.length
    · rw [if_pos hlen]
    · rw [if_neg hlen]
      have hval : ¬ is_chain_valid sha256hex reprNum base interval chainData now = true :=
        fun hv => h ⟨not_le.mp hlen, hv⟩
      rw [if_neg hval]

/-- Witness for C2: a strictly longer fully valid two-block candidate is
adopted (chain swapped, UTXO rebuilt by replay), while an empty candidate
leaves the state untouched. -/
theorem receive_chain_accepts_iff_longer_and_valid_witness :
    receive_chain (fun _ => "0") (fun _ => "T") 1 10
        ⟨[⟨0, 0, [], "0", 0, "G", "m"⟩], [⟨[], [], 0, "t"⟩], []⟩
        [⟨0, 0, [], "0", 0, "0", "m"⟩, ⟨1, 0, [], "0", 0, "0", "m"⟩] 0
      = { chain := [⟨0, 0, [], "0", 0, "0", "m"⟩, ⟨1, 0, [], "0", 0, "0", "m"⟩],
          pending := [⟨[], [], 0, "t"⟩],
          utxo := [⟨0, 0, [], "0", 0, "0", "m"⟩,
            (⟨1, 0, [], "0", 0, "0", "m"⟩ : Block)].foldl update_utxo_set [] } ∧
    receive_chain (fun _ => "0") (fun _ => "T") 1 10
        ⟨[⟨0, 0, [], "0", 0, "G", "m"⟩], [⟨[], [], 0, "t"⟩], []⟩ [] 0
      = ⟨[⟨0, 0, [], "0", 0, "G", "m"⟩], [⟨[], [], 0, "t"⟩], []⟩ :=
  ⟨(receive_chain_accepts_iff_longer_and_valid (fun _ => "0") (fun _ => "T") 1 10
      ⟨[⟨0, 0, [], "0", 0, "G", "m"⟩], [⟨[], [], 0, "t"⟩], []⟩
      [⟨0, 0, [], "0", 0, "0", "m"⟩, ⟨1, 0, [], "0", 0, "0", "m"⟩] 0).1
    ⟨by norm_num,
     by norm_num [is_chain_valid, blockCheck, is_block_timestamp_valid, median_time_past,
       medianQ, sortQ, insertSorted, currentDifficulty, powOk, Block.calculate_hash,
       blockHeaderPreimage, jsonStr, List.range', List.all]⟩,
   (receive_chain_accepts_iff_longer_and_valid (fun _ => "0") (fun _ => "T") 1 10
      ⟨[⟨0, 0, [], "0", 0, "G", "m"⟩], [⟨[], [], 0, "t"⟩], []⟩ [] 0).2
    (by simp)⟩

/-- **C9 counterexample.** The claim as frozen is false on the code: the
node adopts a strictly longer valid peer chain, yet its pending pool is
*not* emptied — `_receive_chain` never touches `pending_transactions`. -/
theorem chain_replacement_keeps_pending_counterexample :
    (receive_chain (fun _ => "0") (fun _ => "T") 1 10
        ⟨[⟨0, 3, [], "0", 0, "G", "m"⟩], [⟨[], [], 0, "q"⟩], []⟩
        [⟨0, 0, [], "0", 0, "0", "m"⟩, ⟨1, 0, [], "0", 0, "0", "m"⟩] 0).chain
      = [⟨0, 0, [], "0", 0, "0", "m"⟩, ⟨1, 0, [], "0", 0, "0", "m"⟩] ∧
    (receive_chain (fun _ => "0") (fun _ => "T") 1 10
        ⟨[⟨0, 3, [], "0", 0, "G", "m"⟩], [⟨[], [], 0, "q"⟩], []⟩
        [⟨0, 0, [], "0", 0, "0", "m"⟩, ⟨1, 0, [], "0", 0, "0", "m"⟩] 0).pending
      = [⟨[], [], 0, "q"⟩] ∧
    ([⟨[], [], 0, "q"⟩] : List Transaction) ≠ [] := by
  refine ⟨?_, ?_, by simp⟩ <;>
    norm_num [receive_chain, is_chain_valid, blockCheck, is_block_timestamp_valid,
      median_time_past, medianQ, sortQ, insertSorted, currentDifficulty, powOk,
      Block.calculate_hash, blockHeaderPreimage, jsonStr, List.range', List.all]

/-- **C9 (amended).** The pending pool is emptied by a successful
(uncancelled) mine; chain replacement leaves the pending pool unchanged. -/
theorem pending_pool_mine_and_replace :
    ∀ (sha256hex : String → String) (reprNum : ℚ → String) (base interval fuel : Nat)
      (st : BCState) (addr : String) (ts1 ts2 : ℚ) (chainData : List Block) (now : ℚ),
      (∀ st', mine_pending_transactions sha256hex reprNum base interval fuel st addr ts1 ts2 false
          = some st' → st'.pending = []) ∧
      (receive_chain sha256hex reprNum base interval st chainData now).pending = st.pending := by
  intro sha256hex reprNum base interval fuel st addr ts1 ts2 chainData now
  constructor
  · intro st' h
    unfold mine_pending_transactions at h
    simp only [] at h
    cases hmb : Block.mine_block sha256hex reprNum
        (currentDifficulty base interval st.chain.length) fuel
        (Block.construct sha256hex reprNum st.chain.length ts2
          (Transaction.construct sha256hex reprNum []
            [⟨addr, miningReward⟩] ts1 :: st.pending)
          (st.chain.getLastD dummyBlock).hash) with
    | none =>
        rw [hmb] at h
        exact Option.noConfusion h
    | some solved =>
        rw [hmb] at h
        have h2 : (if false = true then some st
            else some { chain := st.chain ++ [solved], pending := [],
                        utxo := update_utxo_set st.utxo solved }) = some st' := h
        rw [if_neg (by simp)] at h2
        rw [← Option.some.inj h2]
  · unfold receive_chain
    by_cases hlen : chainData.length ≤ st.chain.length
    · rw [if_pos hlen]
    · rw [if_neg hlen]
      by_cases hval : is_chain_valid sha256hex reprNum base interval chainData now = true
      · rw [if_pos hval]
      · rw [if_neg hval]

/-- Witness for the amended C9: a concrete uncancelled mine (constant hash,
difficulty 1, solved at nonce 0) leaves an empty pending pool, and a
chain-replacement attempt preserves the pool. -/
theorem pending_pool_mine_and_replace_witness :
    some ((mine_pending_transactions (fun _ => "0") (fun _ => "T") 1 10 0
        ⟨[⟨0, 0, [], "0", 0, "G", "m"⟩], [], []⟩ "A" 0 0 false).get (by rfl))
      = mine_pending_transactions (fun _ => "0") (fun _ => "T") 1 10 0
        ⟨[⟨0, 0, [], "0", 0, "G", "m"⟩], [], []⟩ "A" 0 0 false ∧
    ((mine_pending_transactions (fun _ => "0") (fun _ => "T") 1 10 0
        ⟨[⟨0, 0, [], "0", 0, "G", "m"⟩], [], []⟩ "A" 0 0 false).get (by rfl)).pending = [] ∧
    (receive_chain (fun _ => "0") (fun _ => "T") 1 10
        ⟨[], [⟨[], [], 0, "q"⟩], []⟩ [] 0).pending = [⟨[], [], 0, "q"⟩] :=
  ⟨Option.some_get _,
   (pending_pool_mine_and_replace (fun _ => "0") (fun _ => "T") 1 10 0
      ⟨[⟨0, 0, [], "0", 0, "G", "m"⟩], [], []⟩ "A" 0 0 [] 0).1 _ (Option.some_get _).symm,
   (pending_pool_mine_and_replace (fun _ => "0") (fun _ => "T") 1 10 0
      ⟨[], [⟨[], [], 0, "q"⟩], []⟩ "A" 0 0 [] 0).2⟩

/-- **C8 counterexample.** The claim as frozen is false on the code: the
nonce loop of `Block.mine_block` consults no cancel flag.  With the flag
set for the entire mine, the search still runs to a proof-of-work solution
(here it advances the nonce and finds a satisfying hash) before the flag is
read; only then is the solved block discarded, leaving the state unchanged
rather than the search having stopped early. -/
theorem cancel_flag_does_not_stop_nonce_loop :
    ∃ solved,
      Block.mine_block nonceProbeHash constT 1 1
          (Block.construct nonceProbeHash constT 1 0
            [Transaction.construct nonceProbeHash constT []
              [⟨"A", miningReward⟩] 0] "P")
        = some solved ∧
      powOk solved.hash 1 = true ∧ 0 < solved.nonce ∧
      mine_pending_transactions nonceProbeHash constT 1 10 1
          ⟨[⟨0, 0, [], "0", 0, "P", "m"⟩], [], []⟩ "A" 0 0 true
        = some ⟨[⟨0, 0, [], "0", 0, "P", "m"⟩], [], []⟩ :=
  ⟨(Block.mine_block nonceProbeHash constT 1 1
      (Block.construct nonceProbeHash constT 1 0
        [Transaction.construct nonceProbeHash constT []
          [⟨"A", miningReward⟩] 0] "P")).get (by rfl),
   (Option.some_get _).symm, by rfl, by decide, by rfl⟩

/-- **C8 (amended).** The cancel flag is read once, after the nonce loop
returns: whenever the loop terminates with a solved block while the flag is
set, the block is discarded — no block appended, chain, UTXO set and
pending pool all unchanged. -/
theorem cancelled_mine_discards_solved_block :
    ∀ (sha256hex : String → String) (reprNum : ℚ → String) (base interval fuel : Nat)
      (st : BCState) (addr : String) (ts1 ts2 : ℚ) (st' : BCState),
      mine_pending_transactions sha256hex reprNum base interval fuel st addr ts1 ts2 true
        = some st' → st' = st := by
  intro sha256hex reprNum base interval fuel st addr ts1 ts2 st' h
  unfold mine_pending_transactions at h
  simp only [] at h
  cases hmb : Block.mine_block sha256hex reprNum
      (currentDifficulty base interval st.chain.length) fuel
      (Block.construct sha256hex reprNum st.chain.length ts2
        (Transaction.construct sha256hex reprNum []
          [⟨addr, miningReward⟩] ts1 :: st.pending)
        (st.chain.getLastD dummyBlock).hash) with
  | none =>
      rw [hmb] at h
      exact Option.noConfusion h
  | some solved =>
      rw [hmb] at h
      have h2 : (if true = true then some st
          else some { chain := st.chain ++ [solved], pending := [],
                      utxo := update_utxo_set st.utxo solved }) = some st' := h
      rw [if_pos rfl] at h2
      exact (Option.some.inj h2).symm

/-- Witness for the amended C8: a concrete mine that solves at nonce 1 but
whose cancel flag was set returns the original state. -/
theorem cancelled_mine_discards_solved_block_witness :
    (mine_pending_transactions nonceProbeHash constT 1 10 1
        ⟨[⟨0, 1, [], "0", 0, "P", "m"⟩], [], []⟩ "A" 0 0 true).get (by rfl)
      = ⟨[⟨0, 1, [], "0", 0, "P", "m"⟩], [], []⟩ :=
  cancelled_mine_discards_solved_block nonceProbeHash constT 1 10 1
    ⟨[⟨0, 1, [], "0", 0, "P", "m"⟩], [], []⟩ "A" 0 0 _ (Option.some_get _).symm

/-- Rewriting every input's signature leaves the computed transaction hash
unchanged (the serialization never reads the signature field). -/
theorem calculate_hash_map_signature (sha256hex : String → String) (reprNum : ℚ → String)
    (tx : Transaction) (f : TxInput → Option String) :
    Transaction.calculate_hash sha256hex reprNum
        { tx with inputs := tx.inputs.map (fun i => { i with signature := f i }) }
      = Transaction.calculate_hash sha256hex reprNum tx := by
  have hmap : (tx.inputs.map (fun i => { i with signature := f i })).map serializeInput
      = tx.inputs.map serializeInput := by
    rw [List.map_map]
    exact List.map_congr_left (fun a _ => rfl)
  unfold Transaction.calculate_hash txPreimage
  dsimp only
  rw [hmap]

/-- Inner selection loop: if it stops early the accumulator has reached the
target (and, when the matching amounts are non-negative, has not exceeded
the entry's matching total); if it runs through, the accumulator has picked
up exactly the entry's matching total. -/
theorem fsoOuts_spec (addr : String) (amt : ℚ) (txid : String) :
    ∀ (outs : List (Option TxOutput)) (i : Nat) (acc : ℚ) (used : UsedMap),
      (∀ q ∈ outs.filterMap (livePick addr), 0 ≤ q) →
      ((fsoOuts addr amt txid outs i acc used).2.2 = true →
          amt ≤ (fsoOuts addr amt txid outs i acc used).1 ∧
          (fsoOuts addr amt txid outs i acc used).1
            ≤ acc + (outs.filterMap (livePick addr)).sum) ∧
      ((fsoOuts addr amt txid outs i acc used).2.2 = false →
          (fsoOuts addr amt txid outs i acc used).1
            = acc + (outs.filterMap (livePick addr)).sum) := by
  intro outs
  induction outs with
  | nil =>
      intro i acc used _
      exact ⟨fun h => absurd h (by simp [fsoOuts]), fun _ => by simp [fsoOuts]⟩
  | cons o rest ih =>
      intro i acc used hnn
      cases o with
      | none =>
          simpa [fsoOuts, livePick, List.filterMap_cons] using
            ih (i + 1) acc used (by simpa [livePick, List.filterMap_cons] using hnn)
      | some out =>
          by_cases haddr : out.address = addr
          · have hnn' : ∀ q ∈ rest.filterMap (livePick addr), 0 ≤ q := by
              intro q hq
              exact hnn q (by simp [List.filterMap_cons, livePick, haddr, hq])
            have hout : 0 ≤ out.amount :=
              hnn out.amount (by simp [List.filterMap_cons, livePick, haddr])
            have hsum : (List.filterMap (livePick addr) (some out :: rest)).sum
                = out.amount + (rest.filterMap (livePick addr)).sum := by
              simp [List.filterMap_cons, livePick, haddr]
            by_cases hstop : amt ≤ acc + out.amount
            · have hrest : 0 ≤ (rest.filterMap (livePick addr)).sum :=
                List.sum_nonneg hnn'
              have hred : fsoOuts addr amt txid (some out :: rest) i acc used
                  = (acc + out.amount, addUsed used txid i, true) := by
                simp only [fsoOuts]
                rw [if_pos haddr, if_pos hstop]
              rw [hred, hsum]
              dsimp only
              exact ⟨fun _ => ⟨hstop, by linarith⟩, fun h => absurd h (by simp)⟩
            · have hred : fsoOuts addr amt txid (some out :: rest) i acc used
                  = fsoOuts addr amt txid rest (i + 1) (acc + out.amount)
                      (addUsed used txid i) := by
                simp only [fsoOuts]
                rw [if_pos haddr, if_neg hstop]
              have htail := ih (i + 1) (acc + out.amount) (addUsed used txid i) hnn'
              rw [hred, hsum]
              constructor
              · intro h
                obtain ⟨h1, h2⟩ := htail.1 h
                exact ⟨h1, by linarith⟩
              · intro h
                rw [htail.2 h]
                ring
          · simpa [fsoOuts, haddr, livePick, List.filterMap_cons] using
              ih (i + 1) acc used
                (by simpa [livePick, List.filterMap_cons, haddr] using hnn)

/-- Outer selection loop: under non-negative matching amounts, the
accumulated result reaches the target exactly when the starting accumulator
plus the address's total live amount does. -/
theorem fsoGo_ge_iff (addr : String) (amt : ℚ) :
    ∀ (u : UtxoSet) (acc : ℚ) (used : UsedMap),
      (∀ q ∈ liveAmounts u addr, 0 ≤ q) →
      (amt ≤ (fsoGo addr amt u acc used).1 ↔ amt ≤ acc + (liveAmounts u addr).sum) := by
  intro u
  induction u with
  | nil => intro acc used _; simp [fsoGo, liveAmounts]
  | cons e rest ih =>
      intro acc used hnn
      obtain ⟨txid, outs⟩ := e
      have hla : liveAmounts ((txid, outs) :: rest) addr
          = outs.filterMap (livePick addr) ++ liveAmounts rest addr := rfl
      have hnn1 : ∀ q ∈ outs.filterMap (livePick addr), 0 ≤ q := by
        intro q hq
        exact hnn q (by rw [hla]; exact List.mem_append_left _ hq)
      have hnn2 : ∀ q ∈ liveAmounts rest addr, 0 ≤ q := by
        intro q hq
        exact hnn q (by rw [hla]; exact List.mem_append_right _ hq)
      have hspec := fsoOuts_spec addr amt txid outs 0 acc used hnn1
      unfold fsoGo
      cases hres : fsoOuts addr amt txid outs 0 acc used with
      | mk acc' p =>
          obtain ⟨used', done⟩ := p
          rw [hres] at hspec
          cases done with
          | false =>
              have heq : acc' = acc + (outs.filterMap (livePick addr)).sum := hspec.2 rfl
              simp only []
              rw [ih acc' used' hnn2, heq, hla, List.sum_append]
              constructor <;> intro h <;> linarith
          | true =>
              obtain ⟨h1, h2⟩ := hspec.1 rfl
              have hrest : 0 ≤ (liveAmounts rest addr).sum := List.sum_nonneg hnn2
              simp only []
              rw [hla, List.sum_append]
              constructor
              · intro _; linarith
              · intro _; exact h1

/-- **C6.** `create_transaction` returns `None` exactly when the
accumulated spendable outputs of the wallet's address fall short of the
requested amount; otherwise the returned transaction is timestamped as
requested, keeps a txid equal to its signature-free hash, pays the amount
to the recipient plus the positive change back to the wallet, and every
input references a selected output carrying the wallet's public key and the
wallet's signature over the txid. -/
theorem create_transaction_contract :
    ∀ (sha256hex : String → String) (reprNum : ℚ → String) (u : UtxoSet)
      (w : WalletModel) (to_address : String) (amount ts : ℚ),
      (create_transaction sha256hex reprNum u w to_address amount ts = none ↔
        (find_spendable_outputs u w.address amount).1 < amount) ∧
      (∀ tx, create_transaction sha256hex reprNum u w to_address amount ts = some tx →
        tx.timestamp = ts ∧
        tx.txid = Transaction.calculate_hash sha256hex reprNum tx ∧
        tx.outputs = ⟨to_address, amount⟩ ::
          (if 0 < (find_spendable_outputs u w.address amount).1 - amount
            then [⟨w.address, (find_spendable_outputs u w.address amount).1 - amount⟩]
            else []) ∧
        tx.inputs = ((find_spendable_outputs u w.address amount).2.map
            (fun p => p.2.map (fun v =>
              TxInput.mk p.1 v (some w.pubkeyHex) (some (w.sign tx.txid))))).flatten) ∧
      ((∀ q ∈ liveAmounts u w.address, 0 ≤ q) →
        (create_transaction sha256hex reprNum u w to_address amount ts = none ↔
          get_balance u w.address < amount)) := by
  intro sha256hex reprNum u w to_address amount ts
  have main : (create_transaction sha256hex reprNum u w to_address amount ts = none ↔
        (find_spendable_outputs u w.address amount).1 < amount) ∧
      (∀ tx, create_transaction sha256hex reprNum u w to_address amount ts = some tx →
        tx.timestamp = ts ∧
        tx.txid = Transaction.calculate_hash sha256hex reprNum tx ∧
        tx.outputs = ⟨to_address, amount⟩ ::
          (if 0 < (find_spendable_outputs u w.address amount).1 - amount
            then [⟨w.address, (find_spendable_outputs u w.address amount).1 - amount⟩]
            else []) ∧
        tx.inputs = ((find_spendable_outputs u w.address amount).2.map
            (fun p => p.2.map (fun v =>
              TxInput.mk p.1 v (some w.pubkeyHex) (some (w.sign tx.txid))))).flatten) := by
    unfold create_transaction
    simp only []
    by_cases hlt : (find_spendable_outputs u w.address amount).1 < amount
    · rw [if_pos hlt]
      exact ⟨⟨fun _ => hlt, fun _ => rfl⟩, fun tx h => Option.noConfusion h⟩
    · rw [if_neg hlt]
      constructor
      · exact ⟨fun h => Option.noConfusion h, fun h => absurd h hlt⟩
      · intro tx h
        rw [← Option.some.inj h]
        refine ⟨rfl, ?_, rfl, ?_⟩
        · exact (calculate_hash_map_signature sha256hex reprNum _ _).symm
        · show (((find_spendable_outputs u w.address amount).2.map
              (fun p => p.2.map (fun v =>
                TxInput.mk p.1 v (some w.pubkeyHex) none))).flatten).map _ = _
          rw [List.map_flatten]
          simp only [List.map_map]
          congr 1
          refine List.map_congr_left (fun p _ => ?_)
          simp only [Function.comp_apply, List.map_map]
          rfl
  refine ⟨main.1, main.2, ?_⟩
  intro hnn
  rw [main.1]
  have hb : get_balance u w.address = (liveAmounts u w.address).sum := by
    simpa [get_balance] using get_balance_foldl w.address u 0
  have hiff := fsoGo_ge_iff w.address amount u 0 [] hnn
  rw [hb, ← not_le, ← not_le]
  apply not_congr
  simpa [find_spendable_outputs] using hiff

/-- Witness for C6: an empty UTXO set cannot fund a 5-unit payment
(`None`), while one 5-unit output funds a 3-unit payment, producing the
recipient output, 2 units of change back to the wallet, and a signed input
carrying the wallet's public key. -/
theorem create_transaction_contract_witness :
    create_transaction (fun _ => "H") (fun _ => "T") []
        ⟨"W", "pub", fun _ => "SG"⟩ "R" 5 0 = none ∧
    ∃ tx, create_transaction (fun _ => "H") (fun _ => "T") [("t0", [some ⟨"W", 5⟩])]
        ⟨"W", "pub", fun _ => "SG"⟩ "R" 3 0 = some tx ∧
      tx.outputs = [⟨"R", 3⟩, ⟨"W", 2⟩] ∧
      tx.inputs = [⟨"t0", 0, some "pub", some "SG"⟩] := by
  constructor
  · exact (create_transaction_contract (fun _ => "H") (fun _ => "T") []
      ⟨"W", "pub", fun _ => "SG"⟩ "R" 5 0).1.mpr
      (by norm_num [find_spendable_outputs, fsoGo])
  · have hsome : create_transaction (fun _ => "H") (fun _ => "T")
        [("t0", [some ⟨"W", 5⟩])] ⟨"W", "pub", fun _ => "SG"⟩ "R" 3 0
        = some ⟨[⟨"t0", 0, some "pub", some "SG"⟩], [⟨"R", 3⟩, ⟨"W", 2⟩], 0, "H"⟩ := by
      norm_num [create_transaction, find_spendable_outputs, fsoGo, fsoOuts, addUsed,
        Transaction.construct, Transaction.calculate_hash]
    have h := (create_transaction_contract (fun _ => "H") (fun _ => "T")
        [("t0", [some ⟨"W", 5⟩])] ⟨"W", "pub", fun _ => "SG"⟩ "R" 3 0).2.1 _ hsome
    refine ⟨_, hsome, ?_, ?_⟩
    · rw [h.2.2.1]
      norm_num [find_spendable_outputs, fsoGo, fsoOuts, addUsed]
    · rw [h.2.2.2]
      norm_num [find_spendable_outputs, fsoGo, fsoOuts, addUsed]

/-- `startswith('0' * d)` holds exactly when at least `d` leading characters
equal `'0'`. -/
theorem replicate_isPrefixOf_iff (c : Char) :
    ∀ (d : Nat) (l : List Char),
      (List.replicate d c).isPrefixOf l = true ↔ d ≤ (l.takeWhile (· == c)).length := by
  intro d
  induction d with
  | zero => intro l; simp [List.isPrefixOf]
  | succ d ih =>
      intro l
      cases l with
      | nil => simp [List.replicate, List.isPrefixOf]
      | cons x xs =>
          by_cases hx : x = c
          · subst hx
            simp only [List.replicate, List.isPrefixOf, List.takeWhile]
            simp [ih xs, Nat.succ_le_succ_iff]
          · have hxc : (x == c) = false := beq_eq_false_iff_ne.mpr hx
            have hcx : (c == x) = false := beq_eq_false_iff_ne.mpr (Ne.symm hx)
            simp [List.replicate, List.isPrefixOf, List.takeWhile, hxc, hcx]

/-- Proof-of-work check versus the count of leading `'0'` characters. -/
theorem powOk_iff (hash : String) (d : Nat) :
    powOk hash d = true ↔ d ≤ leadingZeros hash :=
  replicate_isPrefixOf_iff '0' d hash.data

/-- The difficulty formula is monotone in the chain length. -/
theorem currentDifficulty_mono (base interval : Nat) {m n : Nat} (h : m ≤ n) :
    currentDifficulty base interval m ≤ currentDifficulty base interval n :=
  max_le_max (le_refl 1) (Nat.add_le_add_left (Nat.div_le_div_right h) base)

/-- **C1.** A chain accepted by `is_chain_valid` satisfies, at every index
`i ≥ 1`: the timestamp rule, `hash = H(header)`, the `previous_hash` link,
and proof-of-work with at least `difficulty_at(i) = max(1, base +
i / interval)` leading `'0'` hex digits (the code checks the stronger
uniform bound derived from the whole chain length, which dominates every
per-index difficulty); and validation's pass/fail verdict agrees with the
first-failing-index report. -/
theorem chain_validation_sound :
    ∀ (sha256hex : String → String) (reprNum : ℚ → String) (base interval : Nat)
      (chain : List Block) (now : ℚ),
      (is_chain_valid sha256hex reprNum base interval chain now = true ↔
        firstFailingIndex sha256hex reprNum base interval chain now = none) ∧
      (is_chain_valid sha256hex reprNum base interval chain now = true →
        ∀ (i : Nat) (cur prev : Block), 1 ≤ i →
          chain[i]? = some cur → chain[i - 1]? = some prev →
          is_block_timestamp_valid chain now cur = true ∧
          cur.hash = Block.calculate_hash sha256hex reprNum cur ∧
          cur.previous_hash = prev.hash ∧
          currentDifficulty base interval i ≤ leadingZeros cur.hash) := by
  intro sha256hex reprNum base interval chain now
  constructor
  · unfold is_chain_valid firstFailingIndex
    cases hf : (List.range' 1 (chain.length - 1)).find?
        (fun i => ! blockCheck sha256hex reprNum base interval chain now i) with
    | some i =>
        have hmem := List.mem_of_find?_eq_some hf
        have hfail := List.find?_some hf
        have hall : (List.range' 1 (chain.length - 1)).all
            (blockCheck sha256hex reprNum base interval chain now) = false := by
          rw [Bool.eq_false_iff]
          intro hall
          rw [List.all_eq_true] at hall
          rw [hall i hmem] at hfail
          exact Bool.noConfusion hfail
        simp [hall]
    | none =>
        have hall : (List.range' 1 (chain.length - 1)).all
            (blockCheck sha256hex reprNum base interval chain now) = true := by
          rw [List.all_eq_true]
          intro x hx
          have hnx := List.find?_eq_none.mp hf x hx
          simpa using hnx
        rw [hall]
        simp only [Bool.true_and]
        cases hg : chain[0]? with
        | none => simp
        | some g =>
            by_cases htv : is_block_timestamp_valid chain now g = true
            · simp [htv]
            · simp [htv]
  · intro hvalid i cur prev hi hcur hprev
    have hilt : i < chain.length := by
      by_contra hc
      rw [List.getElem?_eq_none (Nat.le_of_not_lt hc)] at hcur
      exact Option.noConfusion hcur
    have hall : (List.range' 1 (chain.length - 1)).all
        (blockCheck sha256hex reprNum base interval chain now) = true := by
      unfold is_chain_valid at hvalid
      exact (Bool.and_eq_true _ _ |>.mp hvalid).1
    have hmem : i ∈ List.range' 1 (chain.length - 1) := by
      rw [List.mem_range'_1]
      omega
    have hbc := (List.all_eq_true.mp hall) i hmem
    unfold blockCheck at hbc
    rw [hcur, hprev] at hbc
    obtain ⟨⟨⟨h1, h2⟩, h3⟩, h4⟩ :=
      by simpa only [Bool.and_eq_true] using hbc
    refine ⟨h1, by simpa using h2, by simpa using h3, ?_⟩
    calc currentDifficulty base interval i
        ≤ currentDifficulty base interval chain.length :=
          currentDifficulty_mono base interval (Nat.le_of_lt hilt)
      _ ≤ leadingZeros cur.hash := (powOk_iff _ _).mp h4

/-- Witness for C1: a concrete valid two-block chain (constant hash `"0"`,
base difficulty 1) satisfies all four per-block properties at index 1. -/
theorem chain_validation_sound_witness :
    is_block_timestamp_valid [⟨0, 0, [], "0", 0, "0", "m"⟩, ⟨1, 0, [], "0", 0, "0", "m"⟩] 0
        ⟨1, 0, [], "0", 0, "0", "m"⟩ = true ∧
    (⟨1, 0, [], "0", 0, "0", "m"⟩ : Block).hash
        = Block.calculate_hash (fun _ => "0") (fun _ => "T") ⟨1, 0, [], "0", 0, "0", "m"⟩ ∧
    (⟨1, 0, [], "0", 0, "0", "m"⟩ : Block).previous_hash
        = (⟨0, 0, [], "0", 0, "0", "m"⟩ : Block).hash ∧
    currentDifficulty 1 10 1 ≤ leadingZeros (⟨1, 0, [], "0", 0, "0", "m"⟩ : Block).hash :=
  (chain_validation_sound (fun _ => "0") (fun _ => "T") 1 10
      [⟨0, 0, [], "0", 0, "0", "m"⟩, ⟨1, 0, [], "0", 0, "0", "m"⟩] 0).2
    (by norm_num [is_chain_valid, blockCheck, is_block_timestamp_valid, median_time_past,
      medianQ, sortQ, insertSorted, currentDifficulty, powOk, Block.calculate_hash,
      blockHeaderPreimage, jsonStr, List.range', List.all])
    1 ⟨1, 0, [], "0", 0, "0", "m"⟩ ⟨0, 0, [], "0", 0, "0", "m"⟩ (by norm_num) rfl rfl
